import Mathlib

/-!
Shallow embedding of the reconciliation tool in `src/app.py` (the V16
variant at the top of the file is the authoritative source; the script
embedded in the trailing chat transcript is identical on the parts
modelled here).

Text is modelled as a list of Unicode code points (`List Nat`).  The
library calls the Python code makes (`unicodedata.normalize('NFKC', ·)`,
`re.sub`, `str.strip`, `str.lower`, `re.split`) are embedded as
executable functions that are faithful to the library behaviour on the
code points this development uses; every such fragment is documented at
its definition.
-/

namespace GroupOrderCheck

/-- Code points matched by Python's `\s` character class on `str`
patterns (Unicode whitespace), which is exactly the set of code points
`str.strip()` also removes: ASCII whitespace and separators
U+0009-U+000D, U+001C-U+001F, U+0020, next-line U+0085, no-break space
U+00A0, ogham space U+1680, the U+2000-U+200A spaces, line/paragraph
separators U+2028/U+2029, U+202F, U+205F and ideographic space U+3000. -/
def isPySpace (c : Nat) : Bool :=
  (0x9 ≤ c && c ≤ 0xD) || (0x1C ≤ c && c ≤ 0x1F) || c == 0x20 ||
  c == 0x85 || c == 0xA0 || c == 0x1680 ||
  (0x2000 ≤ c && c ≤ 0x200A) || c == 0x2028 || c == 0x2029 ||
  c == 0x202F || c == 0x205F || c == 0x3000

/-- The character class of the removal regex in `forensic_clean_text`
(src/app.py line 29 / 358): `[​-‍﻿\s\xa0]`. -/
def isInvisible (c : Nat) : Bool :=
  (0x200B ≤ c && c ≤ 0x200D) || c == 0xFEFF || isPySpace c || c == 0xA0

/-- `re.sub(r'[​-‍﻿\s\xa0]+', '', ·)`: global removal of
every character of the class, everywhere in the string. -/
def removeInvisible (t : List Nat) : List Nat :=
  t.filter (fun c => !isInvisible c)

/-- Python `str.strip()`: drop leading and trailing whitespace. -/
def pyStrip (t : List Nat) : List Nat :=
  ((t.dropWhile isPySpace).reverse.dropWhile isPySpace).reverse

/-- Compatibility decomposition table of NFKC, restricted to the code
points appearing in this development: U+FF0C FULLWIDTH COMMA maps to
U+002C and U+3000 IDEOGRAPHIC SPACE maps to U+0020 (per
UnicodeData.txt); every other code point used here has no compatibility
decomposition and maps to itself. -/
def nfkcDecomp (c : Nat) : List Nat :=
  if c == 0xFF0C then [0x2C]
  else if c == 0x3000 then [0x20]
  else [c]

/-- Canonical composition table of NFKC restricted to the code points of
this development: LATIN SMALL LETTER A U+0061 followed by COMBINING
ACUTE ACCENT U+0301 composes to U+00E1; no other pair of code points
used here is a primary composite. -/
def composePair (a b : Nat) : Option Nat :=
  if a == 0x61 && b == 0x301 then some 0xE1 else none

/-- Canonical composition pass over the tail, carrying the pending
character `a`: when `a` and the next character form a primary composite
the composite becomes the new pending character, otherwise `a` is
emitted. -/
def canonComposeAux (a : Nat) : List Nat → List Nat
  | [] => [a]
  | b :: rest =>
    match composePair a b with
    | some ab => canonComposeAux ab rest
    | none => a :: canonComposeAux b rest

/-- Canonical composition pass: an adjacent pair that is a primary
composite is replaced and composition continues.  For the strings of
this development (at most one combining mark after a starter, and
U+200B, a starter with combining class 0, blocking composition across
it) this agrees with the Unicode canonical composition algorithm. -/
def canonCompose : List Nat → List Nat
  | [] => []
  | a :: rest => canonComposeAux a rest

/-- Model of `unicodedata.normalize('NFKC', ·)` on the fragment of
Unicode used in this development: compatibility decomposition followed
by canonical composition. -/
def nfkc (t : List Nat) : List Nat :=
  canonCompose (t.flatMap nfkcDecomp)

/-- `forensic_clean_text` on a string, parametrised by the normalizer
call so that the `try/except` of src/app.py lines 23-26 is explicit: if
the normalizer raises (returns `.error`), the original string is used
instead, and the invisible-character removal and the final `strip` are
applied either way. -/
def forensic_clean_core (f : List Nat → Except Unit (List Nat)) (text : List Nat) :
    List Nat :=
  let cleaned := match f text with
    | .ok c => c
    | .error _ => text
  pyStrip (removeInvisible cleaned)

/-- The actual normalizer call: `unicodedata.normalize('NFKC', text)`,
which does not raise on the modelled fragment. -/
def nfkcE (t : List Nat) : Except Unit (List Nat) := .ok (nfkc t)

/-- `forensic_clean_text` applied to a value that is a string. -/
def forensic_clean_str (t : List Nat) : List Nat :=
  forensic_clean_core nfkcE t

/-- Raw cell values as the pipeline sees them: a Python string, the
pandas missing value (NaN), or an integer. -/
inductive Value
  | vstr (s : List Nat)
  | vnan
  | vint (n : Int)
deriving DecidableEq, Repr

/-- `forensic_clean_text` (src/app.py lines 18-30): non-string input is
returned unchanged (lines 20-21); strings go through NFKC, removal and
strip. -/
def forensic_clean_text : Value → Value
  | .vstr s => .vstr (forensic_clean_str s)
  | v => v

/-- Decimal digits of a natural number as code points. -/
def natStr (n : Nat) : List Nat :=
  (Nat.toDigits 10 n).map Char.toNat

/-- Python `str` of an integer. -/
def intStr (n : Int) : List Nat :=
  if n < 0 then 0x2D :: natStr n.natAbs else natStr n.natAbs

/-- `.astype(str)` on a cell: a string stays itself, NaN becomes the
literal string "nan", an integer its decimal representation. -/
def astype : Value → List Nat
  | .vstr s => s
  | .vnan => [0x6E, 0x61, 0x6E]
  | .vint n => intStr n

/-- Python `str.lower()` restricted to the ASCII letters (sufficient for
the code points of this development). -/
def lowerCp (c : Nat) : Nat :=
  if 0x41 ≤ c && c ≤ 0x5A then c + 0x20 else c

/-- `.str.lower()` over a name string. -/
def lowerStr (t : List Nat) : List Nat := t.map lowerCp

/-- The delimiter class of `name_series.str.split(r'[、,，/]')`
(src/app.py line 60): ideographic comma U+3001, half-width comma U+002C,
full-width comma U+FF0C, slash U+002F. -/
def isDelim (c : Nat) : Bool :=
  c == 0x3001 || c == 0x2C || c == 0xFF0C || c == 0x2F

/-- `re.split` on the delimiter class: splitting the empty string gives
one empty token, every delimiter occurrence starts a new token, so k
delimiters give k+1 tokens (empty tokens included). -/
def splitDelims : List Nat → List (List Nat)
  | [] => [[]]
  | c :: rest =>
    let r := splitDelims rest
    if isDelim c then [] :: r
    else
      match r with
      | [] => [[c]]
      | t :: ts => (c :: t) :: ts

/-- The per-source column mapping (which columns the user selected):
`true` means the column is mapped.  `name`, `start_date` and `end_date`
are the required fields checked by the `all(...)` guard of
`process_and_standardize` (src/app.py line 34). -/
structure ColMap where
  colName : Bool
  colStart : Bool
  colEnd : Bool
  colRoomType : Bool
  colRoomNumber : Bool
  colPrice : Bool
deriving DecidableEq, Repr

/-- One raw input row, already projected onto the mapped columns: the
cell of each selectable column (cells of unmapped columns are simply
never read). -/
structure RawRow where
  nameCell : Value
  startCell : Value
  endCell : Value
  roomTypeCell : Value
  roomNumberCell : Value
  priceCell : Value
deriving DecidableEq, Repr

/-- One standardized output row of `process_and_standardize` (one
exploded person).  `none` in a date/room/price field is the pandas null
(NaT/NaN) or an unmapped column. -/
structure Rec where
  name_original : List Nat
  name : List Nat
  start_date : Option (List Nat)
  end_date : Option (List Nat)
  room_type : Option (List Nat)
  room_number : Option (List Nat)
  price : Option Int
deriving DecidableEq, Repr

/-- The pairs fed to the dict comprehension
`{forensic_clean_text(v): forensic_clean_text(k) for k, values in
room_type_equivalents.items() for v in values}` (src/app.py line 52), in
iteration order.  An equivalence map is a list of
(canonical label, synonym list) groups. -/
def rmPairs (equiv : List (List Nat × List (List Nat))) :
    List (List Nat × List Nat) :=
  equiv.flatMap (fun kv => kv.2.map (fun v => (forensic_clean_str v, forensic_clean_str kv.1)))

/-- Lookup in the dict built by the comprehension: in a Python dict a
later assignment to the same key overwrites an earlier one, so lookup
returns the value of the last pair whose key matches. -/
def rmLookup (equiv : List (List Nat × List (List Nat))) (key : List Nat) :
    Option (List Nat) :=
  ((rmPairs equiv).reverse.find? (fun p => p.1 == key)).map (fun p => p.2)

/-- Room-type standardization (src/app.py lines 49-53): clean the cell;
when an equivalence map was supplied (`if room_type_equivalents:` is
falsy on None and on an empty dict), `Series.replace` substitutes values
that are keys of the inverted map. -/
def stdRoomType (equiv : List (List Nat × List (List Nat))) (v : Value) :
    List Nat :=
  let c := forensic_clean_str (astype v)
  if equiv.isEmpty then c
  else
    match rmLookup equiv c with
    | some canon => canon
    | none => c

/-- Room-number standardization (src/app.py lines 57-58): `astype(str)`
then `forensic_clean_text`, and nothing else. -/
def roomNumberStd (v : Value) : List Nat :=
  forensic_clean_str (astype v)

/-- The records one raw row contributes to `standard_df` right after the
`explode` and the per-token clean/lower (src/app.py lines 38-65), before
the `dropna` and empty-name filters.  The non-name fields are computed
once from the row; the cleaned name cell is split on the delimiter class
and one record is emitted per token, each token cleaned again and
optionally lowercased.  `toDT` models
`lambda s: pd.to_datetime(s, errors='coerce').strftime('%Y-%m-%d')`
(an ISO date string, or none for NaT) and `toNum` models
`pd.to_numeric(errors='coerce')`; both are parameters because their
implementations live inside pandas, and every theorem below holds for an
arbitrary choice. -/
def rowRecords (m : ColMap) (equiv : List (List Nat × List (List Nat)))
    (ci : Bool) (toDT : List Nat → Option (List Nat))
    (toNum : List Nat → Option Int) (row : RawRow) : List Rec :=
  let orig := astype row.nameCell
  let cleanedCell := forensic_clean_str orig
  let sd := toDT (pyStrip (astype row.startCell))
  let ed := toDT (pyStrip (astype row.endCell))
  let rt := if m.colRoomType then some (stdRoomType equiv row.roomTypeCell) else none
  let rn := if m.colRoomNumber then some (roomNumberStd row.roomNumberCell) else none
  let pr := if m.colPrice then toNum (pyStrip (astype row.priceCell)) else none
  (splitDelims cleanedCell).map (fun tok =>
    let nm := forensic_clean_str tok
    { name_original := orig
      name := if ci then lowerStr nm else nm
      start_date := sd
      end_date := ed
      room_type := rt
      room_number := rn
      price := pr })

/-- The `dropna(subset=['name', 'start_date', 'end_date'])` of
src/app.py line 67.  The name column cannot be null there (it is built
by splitting a string, which always yields strings), so the condition is
that both standardized dates are non-null. -/
def keepRec (r : Rec) : Bool :=
  r.start_date.isSome && r.end_date.isSome

/-- `process_and_standardize` (src/app.py lines 32-70): `none` when a
required column mapping is missing (line 34-35); otherwise per-row field
standardization, explode of the name cell, the `dropna` on required
fields, and the removal of records whose name is the empty string
(line 68). -/
def process_and_standardize (m : ColMap)
    (equiv : List (List Nat × List (List Nat))) (ci : Bool)
    (toDT : List Nat → Option (List Nat)) (toNum : List Nat → Option Int)
    (rows : List RawRow) : Option (List Rec) :=
  if m.colName && m.colStart && m.colEnd then
    some ((((rows.flatMap (rowRecords m equiv ci toDT toNum)).filter keepRec).filter
      (fun r => !r.name.isEmpty)))
  else none

/-- One matcher outcome: a matched pair or a single-source pair. -/
inductive MatchPair
  | both (l r : Rec)
  | leftOnly (l : Rec)
  | rightOnly (r : Rec)
deriving DecidableEq, Repr

/-- The records of a set carrying a given canonical name, in original
encounter order. -/
def recsNamed (n : List Nat) (l : List Rec) : List Rec :=
  l.filter (fun r => r.name == n)

/-- Modelled from the spec: the Matcher is absent from src/app.py (lines
175 and 198 hold only the placeholder comments "Matching logic remains
the same as V15.2" / "Logic from V15.2 goes here"), so exact-mode
matching is modelled from spec section 4.4: group both record lists by
canonical name; for each name pair records in original encounter order
(first-left with first-right, ...), producing min(count_left,
count_right) matched pairs, and emit every surplus record as a
single-source pair. -/
def matchExact (L R : List Rec) : List MatchPair :=
  (((L ++ R).map (fun r => r.name)).dedup).flatMap (fun n =>
    let ls := recsNamed n L
    let rs := recsNamed n R
    ((ls.zip rs).map (fun p => MatchPair.both p.1 p.2))
      ++ ((ls.drop rs.length).map MatchPair.leftOnly)
      ++ ((rs.drop ls.length).map MatchPair.rightOnly))

/-- The matched pairs of a match result whose left member carries name
`n`. -/
def matchedFor (n : List Nat) (ps : List MatchPair) : List (Rec × Rec) :=
  ps.filterMap (fun p => match p with
    | .both a b => if a.name == n then some (a, b) else none
    | _ => none)

/-- The left-only pairs of a match result carrying name `n`. -/
def leftOnlyFor (n : List Nat) (ps : List MatchPair) : List Rec :=
  ps.filterMap (fun p => match p with
    | .leftOnly a => if a.name == n then some a else none
    | _ => none)

/-- The right-only pairs of a match result carrying name `n`. -/
def rightOnlyFor (n : List Nat) (ps : List MatchPair) : List Rec :=
  ps.filterMap (fun p => match p with
    | .rightOnly a => if a.name == n then some a else none
    | _ => none)

/-! ## Concrete instantiations used by witness and counterexample
theorems.  The pipeline theorems hold for an arbitrary date/number
parser; these witnesses instantiate them with a parser that succeeds on
every non-empty string (returning it unchanged) and fails on the empty
string. -/

/-- Witness date parser: none exactly on the empty string. -/
def wDT (s : List Nat) : Option (List Nat) :=
  if s.isEmpty then none else some s

/-- Witness price parser: none exactly on the empty string. -/
def wNum (s : List Nat) : Option Int :=
  if s.isEmpty then none else some 0

/-- A column mapping with every column selected. -/
def mAll : ColMap := ⟨true, true, true, true, true, true⟩

/-- Row with name "a" and parseable cells "d" everywhere else. -/
def goodRow : RawRow :=
  ⟨Value.vstr [0x61], Value.vstr [0x64], Value.vstr [0x64],
   Value.vstr [0x64], Value.vstr [0x64], Value.vstr [0x64]⟩

/-- Row with name "b" whose start-date cell is unparseable (empty). -/
def badRow : RawRow :=
  ⟨Value.vstr [0x62], Value.vstr [], Value.vstr [0x64],
   Value.vstr [0x64], Value.vstr [0x64], Value.vstr [0x64]⟩

/-- Row with name "c" whose end-date cell is unparseable (empty). -/
def badRow2 : RawRow :=
  ⟨Value.vstr [0x63], Value.vstr [0x64], Value.vstr [],
   Value.vstr [0x64], Value.vstr [0x64], Value.vstr [0x64]⟩

/-- Row whose name cell is only delimiters: "、、". -/
def delimRow : RawRow :=
  ⟨Value.vstr [0x3001, 0x3001], Value.vstr [0x64], Value.vstr [0x64],
   Value.vstr [0x64], Value.vstr [0x64], Value.vstr [0x64]⟩

/-- Row whose name cell "a、、b" has an empty middle token. -/
def rowAB : RawRow :=
  ⟨Value.vstr [0x61, 0x3001, 0x3001, 0x62], Value.vstr [0x64], Value.vstr [0x64],
   Value.vstr [0x64], Value.vstr [0x64], Value.vstr [0x64]⟩

/-- Row whose name cell "a、b" splits into two non-empty tokens. -/
def rowAB2 : RawRow :=
  ⟨Value.vstr [0x61, 0x3001, 0x62], Value.vstr [0x64], Value.vstr [0x64],
   Value.vstr [0x64], Value.vstr [0x64], Value.vstr [0x64]⟩

/-- Row whose name cell is the pandas missing value. -/
def nanRow : RawRow :=
  ⟨Value.vnan, Value.vstr [0x64], Value.vstr [0x64],
   Value.vstr [0x64], Value.vstr [0x64], Value.vstr [0x64]⟩

/-- The single standardized record `goodRow` yields under `mAll`, `wDT`
and `wNum`. -/
def goodRec : Rec :=
  ⟨[0x61], [0x61], some [0x64], some [0x64], some [0x64], some [0x64], some 0⟩

/-! ## Helper lemmas about the text normalizer -/

lemma mem_pyStrip {c : Nat} {t : List Nat} (h : c ∈ pyStrip t) : c ∈ t := by
  unfold pyStrip at h
  rw [List.mem_reverse] at h
  have h1 := (List.dropWhile_sublist (l := (t.dropWhile isPySpace).reverse) (p := isPySpace)).mem h
  rw [List.mem_reverse] at h1
  exact (List.dropWhile_sublist (l := t) (p := isPySpace)).mem h1

lemma clean_no_invisible {c : Nat} {t : List Nat}
    (h : c ∈ forensic_clean_str t) : isInvisible c = false := by
  unfold forensic_clean_str forensic_clean_core nfkcE at h
  simp only at h
  have h1 := mem_pyStrip h
  unfold removeInvisible at h1
  have := List.of_mem_filter h1
  simpa using this

lemma removeInvisible_eq_self {t : List Nat}
    (h : ∀ c ∈ t, isInvisible c = false) : removeInvisible t = t := by
  unfold removeInvisible
  rw [List.filter_eq_self]
  intro c hc
  simp [h c hc]

lemma dropWhile_eq_self_of_false {p : Nat → Bool} {t : List Nat}
    (h : ∀ c ∈ t, p c = false) : t.dropWhile p = t := by
  cases t with
  | nil => rfl
  | cons a l => simp [List.dropWhile_cons, h a (by simp)]

lemma pyStrip_eq_self {t : List Nat}
    (h : ∀ c ∈ t, isPySpace c = false) : pyStrip t = t := by
  unfold pyStrip
  rw [dropWhile_eq_self_of_false h]
  rw [dropWhile_eq_self_of_false (fun c hc => h c (List.mem_reverse.mp hc))]
  exact List.reverse_reverse t

lemma isPySpace_false_of_isInvisible_false {c : Nat}
    (h : isInvisible c = false) : isPySpace c = false := by
  unfold isInvisible at h
  cases hps : isPySpace c with
  | false => rfl
  | true => simp [hps] at h

/-! ## C3: idempotence of the text normalizer -/

/-- C3, counterexample.  The normalizer is not idempotent.  On the
string `"a​́"` (LATIN SMALL LETTER A, ZERO WIDTH SPACE,
COMBINING ACUTE ACCENT), NFKC leaves the string unchanged — U+200B is a
starter and blocks the a + acute composition — and the removal step then
deletes U+200B, yielding `"á"`.  A second application of the
normalizer NFKC-composes that to the single code point U+00E1, so
`normalize(normalize(x)) ≠ normalize(x)`. -/
theorem clean_not_idempotent_cex :
    forensic_clean_str (forensic_clean_str [0x61, 0x200B, 0x301])
      ≠ forensic_clean_str [0x61, 0x200B, 0x301] := by decide

/-- C3, amended.  The normalizer is idempotent on every string whose
once-normalized form is itself NFKC-invariant; in general the
invisible-character removal can re-expose a composable sequence and a
second normalization differs from the first. -/
theorem clean_idempotent_on_nfkc_stable (t : List Nat)
    (h : nfkc (forensic_clean_str t) = forensic_clean_str t) :
    forensic_clean_str (forensic_clean_str t) = forensic_clean_str t := by
  have hinv : ∀ c ∈ forensic_clean_str t, isInvisible c = false :=
    fun c hc => clean_no_invisible hc
  show forensic_clean_core nfkcE (forensic_clean_str t) = forensic_clean_str t
  unfold forensic_clean_core nfkcE
  simp only
  rw [h, removeInvisible_eq_self hinv,
    pyStrip_eq_self (fun c hc => isPySpace_false_of_isInvisible_false (hinv c hc))]

/-- C3, witness for `clean_idempotent_on_nfkc_stable` at the concrete
string `"ab"`. -/
theorem clean_idempotent_on_nfkc_stable_witness :
    forensic_clean_str (forensic_clean_str [0x61, 0x62])
      = forensic_clean_str [0x61, 0x62] :=
  clean_idempotent_on_nfkc_stable [0x61, 0x62] (by decide)

/-! ## C6: room-number standardization -/

/-- C6, counterexample.  The room-number standardizer of src/app.py
lines 57-58 only applies `forensic_clean_text`; it does not strip a
trailing ".0", so the cell `"305.0"` standardizes to `"305.0"`, not to
`"305"` as the claim states. -/
theorem room_number_keeps_trailing_zero_cex :
    roomNumberStd (Value.vstr [0x33, 0x30, 0x35, 0x2E, 0x30])
        = [0x33, 0x30, 0x35, 0x2E, 0x30]
      ∧ roomNumberStd (Value.vstr [0x33, 0x30, 0x35, 0x2E, 0x30])
        ≠ [0x33, 0x30, 0x35] := by decide

lemma composePair_eq_none {a b : Nat} (h : b ≠ 0x301) :
    composePair a b = none := by
  simp only [composePair, ite_eq_right_iff]
  intro hab
  rw [Bool.and_eq_true, beq_iff_eq, beq_iff_eq] at hab
  exact absurd hab.2 h

lemma canonComposeAux_eq_self (a : Nat) {t : List Nat}
    (h : ∀ c ∈ t, c ≠ 0x301) : canonComposeAux a t = a :: t := by
  induction t generalizing a with
  | nil => rfl
  | cons b rest ih =>
    rw [canonComposeAux, composePair_eq_none (h b (by simp))]
    rw [ih b (fun c hc => h c (by simp [hc]))]

lemma canonCompose_eq_self {t : List Nat}
    (h : ∀ c ∈ t, c ≠ 0x301) : canonCompose t = t := by
  cases t with
  | nil => rfl
  | cons a l =>
    rw [canonCompose]
    exact canonComposeAux_eq_self a (fun c hc => h c (by simp [hc]))

lemma nfkcDecomp_eq_self {c : Nat} (h : c ≤ 0x7E) : nfkcDecomp c = [c] := by
  unfold nfkcDecomp
  rw [if_neg, if_neg]
  · simp only [beq_iff_eq]; omega
  · simp only [beq_iff_eq]; omega

lemma flatMap_decomp_eq_self {t : List Nat}
    (h : ∀ c ∈ t, c ≤ 0x7E) : t.flatMap nfkcDecomp = t := by
  induction t with
  | nil => rfl
  | cons a l ih =>
    rw [List.flatMap_cons, nfkcDecomp_eq_self (h a (by simp)),
      ih (fun c hc => h c (by simp [hc]))]
    rfl

lemma isInvisible_false_of_printable {c : Nat}
    (h1 : 0x21 ≤ c) (h2 : c ≤ 0x7E) : isInvisible c = false := by
  unfold isInvisible isPySpace
  simp only [Bool.or_eq_false_iff, Bool.and_eq_false_iff, beq_eq_false_iff_ne,
    decide_eq_false_iff_not, not_le]
  omega

lemma clean_printable_eq_self {s : List Nat}
    (h : ∀ c ∈ s, 0x21 ≤ c ∧ c ≤ 0x7E) : forensic_clean_str s = s := by
  unfold forensic_clean_str forensic_clean_core nfkcE
  simp only
  have hn : nfkc s = s := by
    unfold nfkc
    rw [flatMap_decomp_eq_self (fun c hc => (h c hc).2)]
    exact canonCompose_eq_self (fun c hc => by have := (h c hc).2; omega)
  rw [hn]
  have hi : ∀ c ∈ s, isInvisible c = false :=
    fun c hc => isInvisible_false_of_printable (h c hc).1 (h c hc).2
  rw [removeInvisible_eq_self hi]
  exact pyStrip_eq_self
    (fun c hc => isPySpace_false_of_isInvisible_false (hi c hc))

/-- C6, amended.  The room-number standardizer only normalizes the text:
on a string cell of printable ASCII (in particular on numeric-looking
values such as `"305.0"`), it returns the string unchanged; no trailing
".0" is stripped. -/
theorem room_number_normalize_only (s : List Nat)
    (h : ∀ c ∈ s, 0x21 ≤ c ∧ c ≤ 0x7E) :
    roomNumberStd (Value.vstr s) = s := by
  unfold roomNumberStd astype
  exact clean_printable_eq_self h

/-- C6, witness for `room_number_normalize_only` at `"305.0"`: the value
passes through with its trailing ".0" intact. -/
theorem room_number_normalize_only_witness :
    roomNumberStd (Value.vstr [0x33, 0x30, 0x35, 0x2E, 0x30])
      = [0x33, 0x30, 0x35, 0x2E, 0x30] :=
  room_number_normalize_only [0x33, 0x30, 0x35, 0x2E, 0x30] (by decide)

/-! ## C7: totality of the text normalizer -/

/-- C7.  `forensic_clean_text` is a total function (it is defined for
every `Value` and, being a Lean function, never throws): a non-string
value is returned unchanged (src/app.py lines 20-21), and whenever the
normalization step fails (the bare `except` of lines 25-26), the
function falls back to processing the original string — the removal and
strip steps are still applied to it. -/
theorem clean_nonstring_and_normalizer_fallback :
    (∀ v : Value, (∀ s, v ≠ Value.vstr s) → forensic_clean_text v = v)
    ∧ (∀ (f : List Nat → Except Unit (List Nat)) (t : List Nat),
        f t = Except.error () → forensic_clean_core f t = pyStrip (removeInvisible t)) := by
  constructor
  · intro v hv
    cases v with
    | vstr s => exact absurd rfl (hv s)
    | vnan => rfl
    | vint n => rfl
  · intro f t h
    unfold forensic_clean_core
    rw [h]

/-- C7, witness for `clean_nonstring_and_normalizer_fallback`: the
non-string value NaN passes through unchanged, and with an
always-failing normalizer the string `"a"` is still cleaned from the
original input. -/
theorem clean_nonstring_and_normalizer_fallback_witness :
    forensic_clean_text Value.vnan = Value.vnan
    ∧ forensic_clean_core (fun _ => Except.error ()) [0x61] = [0x61] := by
  refine ⟨clean_nonstring_and_normalizer_fallback.1 Value.vnan ?_, ?_⟩
  · intro s
    simp
  · rw [clean_nonstring_and_normalizer_fallback.2 (fun _ => Except.error ()) [0x61] rfl]
    decide

/-! ## Helper lemmas about the record-set builder -/

lemma rowRecords_fields {m : ColMap} {equiv : List (List Nat × List (List Nat))}
    {ci : Bool} {toDT : List Nat → Option (List Nat)} {toNum : List Nat → Option Int}
    {row : RawRow} {r : Rec} (hr : r ∈ rowRecords m equiv ci toDT toNum row) :
    r.name_original = astype row.nameCell
    ∧ r.start_date = toDT (pyStrip (astype row.startCell))
    ∧ r.end_date = toDT (pyStrip (astype row.endCell))
    ∧ r.room_type = (if m.colRoomType then some (stdRoomType equiv row.roomTypeCell) else none)
    ∧ r.room_number = (if m.colRoomNumber then some (roomNumberStd row.roomNumberCell) else none)
    ∧ r.price = (if m.colPrice then toNum (pyStrip (astype row.priceCell)) else none) := by
  unfold rowRecords at hr
  simp only [List.mem_map] at hr
  obtain ⟨tok, _, rfl⟩ := hr
  exact ⟨rfl, rfl, rfl, rfl, rfl, rfl⟩

lemma rowRecords_name {m : ColMap} {equiv : List (List Nat × List (List Nat))}
    {ci : Bool} {toDT : List Nat → Option (List Nat)} {toNum : List Nat → Option Int}
    {row : RawRow} {r : Rec} (hr : r ∈ rowRecords m equiv ci toDT toNum row) :
    ∃ tok ∈ splitDelims (forensic_clean_str (astype row.nameCell)),
      r.name = (if ci then lowerStr (forensic_clean_str tok) else forensic_clean_str tok) := by
  unfold rowRecords at hr
  simp only [List.mem_map] at hr
  obtain ⟨tok, htok, rfl⟩ := hr
  exact ⟨tok, htok, rfl⟩

lemma process_eq_some {m : ColMap} {equiv : List (List Nat × List (List Nat))}
    {ci : Bool} {toDT : List Nat → Option (List Nat)} {toNum : List Nat → Option Int}
    {rows : List RawRow} {out : List Rec}
    (hp : process_and_standardize m equiv ci toDT toNum rows = some out) :
    out = ((rows.flatMap (rowRecords m equiv ci toDT toNum)).filter keepRec).filter
      (fun r => !r.name.isEmpty) := by
  unfold process_and_standardize at hp
  cases hcond : (m.colName && m.colStart && m.colEnd) with
  | false => rw [hcond] at hp; simp at hp
  | true =>
    rw [hcond] at hp
    simp only [if_pos] at hp
    exact (Option.some.inj hp).symm

/-! ## C1: explode completeness -/

/-- C1, counterexample.  The name cell "a、、b" has two non-empty
delimiter-separated tokens, but before empty-name filtering the builder
produces one record per token of the split — three records, not two:
`explode` emits a row for the empty middle token as well. -/
theorem explode_pretoken_count_cex :
    (rowRecords mAll [] false wDT wNum rowAB).length = 3
    ∧ ((splitDelims (forensic_clean_str (astype rowAB.nameCell))).filter
        (fun t => !t.isEmpty)).length = 2 := by decide

/-- C1, amended.  For every raw row the record-set builder produces one
StandardizedRecord per delimiter-separated token of the cleaned name
cell, empty tokens included — hence exactly k records before empty-name
filtering when the cell splits into k tokens that are all non-empty —
and all sibling records carry identical start_date, end_date, room_type,
room_number and price values computed once from that row. -/
theorem explode_per_token_counts (m : ColMap)
    (equiv : List (List Nat × List (List Nat))) (ci : Bool)
    (toDT : List Nat → Option (List Nat)) (toNum : List Nat → Option Int)
    (row : RawRow) :
    (rowRecords m equiv ci toDT toNum row).length
        = (splitDelims (forensic_clean_str (astype row.nameCell))).length
    ∧ ((∀ t ∈ splitDelims (forensic_clean_str (astype row.nameCell)), t ≠ []) →
        (rowRecords m equiv ci toDT toNum row).length
          = ((splitDelims (forensic_clean_str (astype row.nameCell))).filter
              (fun t => !t.isEmpty)).length)
    ∧ (∀ r1 ∈ rowRecords m equiv ci toDT toNum row,
       ∀ r2 ∈ rowRecords m equiv ci toDT toNum row,
        r1.start_date = r2.start_date ∧ r1.end_date = r2.end_date
        ∧ r1.room_type = r2.room_type ∧ r1.room_number = r2.room_number
        ∧ r1.price = r2.price
        ∧ r1.start_date = toDT (pyStrip (astype row.startCell))
        ∧ r1.end_date = toDT (pyStrip (astype row.endCell))) := by
  refine ⟨?_, ?_, ?_⟩
  · unfold rowRecords
    simp
  · intro hall
    have hfe : (splitDelims (forensic_clean_str (astype row.nameCell))).filter
        (fun t => !t.isEmpty) = splitDelims (forensic_clean_str (astype row.nameCell)) := by
      rw [List.filter_eq_self]
      intro t ht
      simpa [List.isEmpty_iff] using hall t ht
    rw [hfe]
    unfold rowRecords
    simp
  · intro r1 h1 r2 h2
    have f1 := rowRecords_fields h1
    have f2 := rowRecords_fields h2
    refine ⟨?_, ?_, ?_, ?_, ?_, f1.2.1, f1.2.2.1⟩
    · rw [f1.2.1, f2.2.1]
    · rw [f1.2.2.1, f2.2.2.1]
    · rw [f1.2.2.2.1, f2.2.2.2.1]
    · rw [f1.2.2.2.2.1, f2.2.2.2.2.1]
    · rw [f1.2.2.2.2.2, f2.2.2.2.2.2]

/-- C1, witness for `explode_per_token_counts` at the row "a、b": both
tokens are non-empty and the record count equals the non-empty token
count. -/
theorem explode_per_token_counts_witness :
    (rowRecords mAll [] false wDT wNum rowAB2).length
      = ((splitDelims (forensic_clean_str (astype rowAB2.nameCell))).filter
          (fun t => !t.isEmpty)).length :=
  (explode_per_token_counts mAll [] false wDT wNum rowAB2).2.1 (by decide)

/-! ## C2: dropped rows and error accounting -/

/-- C2, counterexample.  A row whose required start-date cell
standardizes to null is dropped, and nothing in the function's return
value records it: the entire output of `process_and_standardize` on a
table containing the bad row equals its output on the table without the
row, even though the row did produce candidate records.  The code keeps
no parse-error count and returns no report, so the drop is silently
lost, contrary to the claim. -/
theorem dropped_row_untracked_cex :
    process_and_standardize mAll [] false wDT wNum [goodRow, badRow]
      = process_and_standardize mAll [] false wDT wNum [goodRow]
    ∧ rowRecords mAll [] false wDT wNum badRow ≠ [] := by decide

/-- C2, amended.  Rows whose required date fields standardize to null
are dropped entirely, and the drop is silent: `process_and_standardize`
returns only the list of standardized records, with no per-source
parse-error count, and its output on a table extended with such a row is
identical to its output without the row. -/
theorem dropped_row_silent (m : ColMap)
    (equiv : List (List Nat × List (List Nat))) (ci : Bool)
    (toDT : List Nat → Option (List Nat)) (toNum : List Nat → Option Int)
    (rows : List RawRow) (row : RawRow)
    (h : toDT (pyStrip (astype row.startCell)) = none
        ∨ toDT (pyStrip (astype row.endCell)) = none) :
    process_and_standardize m equiv ci toDT toNum (rows ++ [row])
      = process_and_standardize m equiv ci toDT toNum rows := by
  unfold process_and_standardize
  cases hcond : (m.colName && m.colStart && m.colEnd) with
  | false => rfl
  | true =>
    simp only [if_pos]
    have hdrop : (rowRecords m equiv ci toDT toNum row).filter keepRec = [] := by
      rw [List.filter_eq_nil_iff]
      intro r hr
      have hf := rowRecords_fields hr
      unfold keepRec
      cases h with
      | inl hsd => simp [hf.2.1, hsd]
      | inr hed => simp [hf.2.2.1, hed]
    rw [List.flatMap_append, List.filter_append]
    simp only [List.flatMap_cons, List.flatMap_nil, List.append_nil]
    rw [hdrop, List.append_nil]

/-- C2, witness for `dropped_row_silent` at a concrete table with a row
whose end-date cell is unparseable. -/
theorem dropped_row_silent_witness :
    process_and_standardize mAll [] false wDT wNum ([goodRow] ++ [badRow2])
      = process_and_standardize mAll [] false wDT wNum [goodRow] :=
  dropped_row_silent mAll [] false wDT wNum [goodRow] badRow2 (Or.inr (by decide))

/-! ## C8: non-empty canonical names -/

/-- C8.  Every record emitted by `process_and_standardize` has a
non-empty canonical name (the final filter of src/app.py line 68), and a
row whose cleaned name cell splits into only empty tokens (a cell of
only delimiters or whitespace) contributes zero records to the output —
the output for a table extended with such a row equals the output
without it, so the dropped tokens are not reported anywhere. -/
theorem records_nonempty_name_and_delim_only (m : ColMap)
    (equiv : List (List Nat × List (List Nat))) (ci : Bool)
    (toDT : List Nat → Option (List Nat)) (toNum : List Nat → Option Int)
    (rows : List RawRow) :
    (∀ out, process_and_standardize m equiv ci toDT toNum rows = some out →
       ∀ r ∈ out, r.name ≠ [])
    ∧ (∀ row, (∀ t ∈ splitDelims (forensic_clean_str (astype row.nameCell)), t = []) →
        process_and_standardize m equiv ci toDT toNum (rows ++ [row])
          = process_and_standardize m equiv ci toDT toNum rows) := by
  constructor
  · intro out hp r hr
    rw [process_eq_some hp] at hr
    have := List.of_mem_filter hr
    simpa [List.isEmpty_iff] using this
  · intro row hall
    unfold process_and_standardize
    cases hcond : (m.colName && m.colStart && m.colEnd) with
    | false => rfl
    | true =>
      simp only [if_pos]
      have hdrop : ((rowRecords m equiv ci toDT toNum row).filter keepRec).filter
          (fun r => !r.name.isEmpty) = [] := by
        rw [List.filter_eq_nil_iff]
        intro r hr
        have hr' := List.mem_of_mem_filter hr
        obtain ⟨tok, htok, hname⟩ := rowRecords_name hr'
        have htok0 : tok = [] := hall tok htok
        subst htok0
        have : r.name = [] := by
          rw [hname]
          cases ci <;> rfl
        simp [this]
      rw [List.flatMap_append, List.filter_append, List.filter_append]
      simp only [List.flatMap_cons, List.flatMap_nil, List.append_nil]
      rw [hdrop, List.append_nil]

/-- C8, witness for `records_nonempty_name_and_delim_only`: the single
record of the table `[goodRow]` has a non-empty name, and appending the
delimiters-only row "、、" leaves the output unchanged. -/
theorem records_nonempty_name_and_delim_only_witness :
    goodRec.name ≠ []
    ∧ process_and_standardize mAll [] false wDT wNum ([goodRow] ++ [delimRow])
        = process_and_standardize mAll [] false wDT wNum [goodRow] := by
  refine ⟨?_, ?_⟩
  · exact (records_nonempty_name_and_delim_only mAll [] false wDT wNum [goodRow]).1
      [goodRec] (by decide) goodRec (by decide)
  · exact (records_nonempty_name_and_delim_only mAll [] false wDT wNum [goodRow]).2
      delimRow (by decide)

/-! ## C10: missing name cells become the literal string "nan" -/

/-- C10.  A row whose name cell is the pandas missing value is coerced
by `.astype(str)` to the literal string "nan" (src/app.py lines 38-41);
provided the row's date cells parse, the output therefore contains a
StandardizedRecord whose canonical name and original name are the string
"nan" — the row is neither dropped nor reported. -/
theorem missing_name_becomes_nan (m : ColMap)
    (equiv : List (List Nat × List (List Nat))) (ci : Bool)
    (toDT : List Nat → Option (List Nat)) (toNum : List Nat → Option Int)
    (rows : List RawRow) (row : RawRow) (out : List Rec)
    (hm : row ∈ rows)
    (hname : row.nameCell = Value.vnan)
    (hsd : (toDT (pyStrip (astype row.startCell))).isSome = true)
    (hed : (toDT (pyStrip (astype row.endCell))).isSome = true)
    (hp : process_and_standardize m equiv ci toDT toNum rows = some out) :
    ∃ r ∈ out, r.name = [0x6E, 0x61, 0x6E] ∧ r.name_original = [0x6E, 0x61, 0x6E] := by
  have hnan : astype row.nameCell = [0x6E, 0x61, 0x6E] := by rw [hname]; rfl
  have hsplit : splitDelims (forensic_clean_str (astype row.nameCell))
      = [[0x6E, 0x61, 0x6E]] := by rw [hnan]; decide
  refine ⟨⟨astype row.nameCell,
      (if ci then lowerStr (forensic_clean_str [0x6E, 0x61, 0x6E])
        else forensic_clean_str [0x6E, 0x61, 0x6E]),
      toDT (pyStrip (astype row.startCell)),
      toDT (pyStrip (astype row.endCell)),
      (if m.colRoomType then some (stdRoomType equiv row.roomTypeCell) else none),
      (if m.colRoomNumber then some (roomNumberStd row.roomNumberCell) else none),
      (if m.colPrice then toNum (pyStrip (astype row.priceCell)) else none)⟩,
    ?_, ?_, hnan⟩
  · rw [process_eq_some hp]
    refine List.mem_filter.mpr ⟨List.mem_filter.mpr ⟨?_, ?_⟩, ?_⟩
    · refine List.mem_flatMap.mpr ⟨row, hm, ?_⟩
      unfold rowRecords
      simp only [List.mem_map]
      exact ⟨[0x6E, 0x61, 0x6E], by rw [hsplit]; simp, rfl⟩
    · unfold keepRec
      simp [hsd, hed]
    · cases ci <;> simp <;> decide
  · cases ci <;> simp <;> decide

/-- C10, witness for `missing_name_becomes_nan` at a concrete one-row
table whose name cell is missing. -/
theorem missing_name_becomes_nan_witness :
    ∃ r ∈ (((([nanRow].flatMap (rowRecords mAll [] false wDT wNum)).filter
        keepRec).filter (fun r => !r.name.isEmpty))),
      r.name = [0x6E, 0x61, 0x6E] ∧ r.name_original = [0x6E, 0x61, 0x6E] :=
  missing_name_becomes_nan mAll [] false wDT wNum [nanRow] nanRow _
    (by decide) (by decide) (by decide) (by decide) rfl

/-! ## C4: room-type standardization via the inverted equivalence map -/

/-- Concrete equivalence map for the C4 witness: canonical label "K"
with the single synonym "kg". -/
def equiv0 : List (List Nat × List (List Nat)) := [([0x4B], [[0x6B, 0x67]])]

/-- C4.  The room-type standardizer normalizes the cell text and looks
it up in the inverted equivalence map: if the normalized value is a
declared synonym (and the inverted map binds it to a unique canonical
label — in a Python dict a duplicated synonym key is overwritten by the
last group listing it), the cleaned canonical label is substituted;
otherwise the normalized value is kept unchanged. -/
theorem room_type_lookup_canonical (equiv : List (List Nat × List (List Nat)))
    (v : Value) :
    (∀ canon syns s, (canon, syns) ∈ equiv → s ∈ syns →
       forensic_clean_str s = forensic_clean_str (astype v) →
       (∀ p ∈ rmPairs equiv, p.1 = forensic_clean_str (astype v) →
         p.2 = forensic_clean_str canon) →
       stdRoomType equiv v = forensic_clean_str canon)
    ∧ ((∀ p ∈ rmPairs equiv, p.1 ≠ forensic_clean_str (astype v)) →
       stdRoomType equiv v = forensic_clean_str (astype v)) := by
  constructor
  · intro canon syns s hkv hs hclean huniq
    have hne : equiv.isEmpty = false := by
      cases equiv with
      | nil => simp at hkv
      | cons a t => rfl
    have hpm : (forensic_clean_str (astype v), forensic_clean_str canon) ∈ rmPairs equiv := by
      unfold rmPairs
      refine List.mem_flatMap.mpr ⟨(canon, syns), hkv, ?_⟩
      exact List.mem_map.mpr ⟨s, hs, by rw [hclean]⟩
    unfold stdRoomType
    rw [hne]
    simp only [Bool.false_eq_true, if_false]
    cases hfind : (rmPairs equiv).reverse.find?
        (fun p => p.1 == forensic_clean_str (astype v)) with
    | none =>
      exfalso
      have := List.find?_eq_none.mp hfind _ (List.mem_reverse.mpr hpm)
      simp at this
    | some p =>
      have hp1 : p.1 = forensic_clean_str (astype v) := by
        have := List.find?_some hfind
        exact eq_of_beq this
      have hpmem : p ∈ rmPairs equiv :=
        List.mem_reverse.mp (List.mem_of_find?_eq_some hfind)
      have hp2 : p.2 = forensic_clean_str canon := huniq p hpmem hp1
      unfold rmLookup
      rw [hfind]
      simpa using hp2
  · intro hnone
    unfold stdRoomType
    cases hne : equiv.isEmpty with
    | true => simp
    | false =>
      simp only [Bool.false_eq_true, if_false]
      have hfind : (rmPairs equiv).reverse.find?
          (fun p => p.1 == forensic_clean_str (astype v)) = none := by
        rw [List.find?_eq_none]
        intro p hp
        simpa using hnone p (List.mem_reverse.mp hp)
      unfold rmLookup
      rw [hfind]
      rfl

/-- C4, witness for `room_type_lookup_canonical`: the declared synonym
"kg" is replaced by the cleaned canonical label "K", and the undeclared
value "zz" is kept as its normalized self. -/
theorem room_type_lookup_canonical_witness :
    stdRoomType equiv0 (Value.vstr [0x6B, 0x67]) = forensic_clean_str [0x4B]
    ∧ stdRoomType equiv0 (Value.vstr [0x7A, 0x7A])
        = forensic_clean_str (astype (Value.vstr [0x7A, 0x7A])) := by
  constructor
  · exact (room_type_lookup_canonical equiv0 (Value.vstr [0x6B, 0x67])).1
      [0x4B] [[0x6B, 0x67]] [0x6B, 0x67] (by decide) (by decide) (by decide) (by decide)
  · exact (room_type_lookup_canonical equiv0 (Value.vstr [0x7A, 0x7A])).2 (by decide)

/-! ## C9: exact-mode matching multiplicity (spec-modelled) -/

lemma recsNamed_names {n : List Nat} {l : List Rec} {r : Rec}
    (h : r ∈ recsNamed n l) : r.name = n := by
  unfold recsNamed at h
  exact eq_of_beq (List.mem_filter.mp h).2

lemma filterMap_eq_map_of_forall {α β : Type} {g : α → Option β} {h : α → β}
    {l : List α} (H : ∀ a ∈ l, g a = some (h a)) : l.filterMap g = l.map h := by
  induction l with
  | nil => rfl
  | cons a t ih =>
    rw [List.filterMap_cons, H a (by simp), List.map_cons]
    rw [ih (fun x hx => H x (by simp [hx]))]

lemma filterMap_flatMap_nil {α β γ : Type} {ns : List γ} {f : γ → List α}
    {g : α → Option β} (h : ∀ m ∈ ns, (f m).filterMap g = []) :
    (ns.flatMap f).filterMap g = [] := by
  induction ns with
  | nil => rfl
  | cons a t ih =>
    rw [List.flatMap_cons, List.filterMap_append, h a (by simp), List.nil_append]
    exact ih (fun m hm => h m (by simp [hm]))

lemma filterMap_flatMap_single {α β γ : Type} {ns : List γ} {f : γ → List α}
    {g : α → Option β} {n : γ} (hmem : n ∈ ns) (hnd : ns.Nodup)
    (hother : ∀ m ∈ ns, m ≠ n → (f m).filterMap g = []) :
    (ns.flatMap f).filterMap g = (f n).filterMap g := by
  induction ns with
  | nil => simp at hmem
  | cons a t ih =>
    rw [List.flatMap_cons, List.filterMap_append]
    rcases List.mem_cons.mp hmem with rfl | hnt
    · have hnot : n ∉ t := (List.nodup_cons.mp hnd).1
      have htail : (t.flatMap f).filterMap g = [] :=
        filterMap_flatMap_nil (fun m hm =>
          hother m (by simp [hm]) (fun he => hnot (he ▸ hm)))
      rw [htail, List.append_nil]
    · have hna : a ≠ n := fun he => (List.nodup_cons.mp hnd).1 (he ▸ hnt)
      rw [hother a (by simp) hna, List.nil_append]
      exact ih hnt (List.nodup_cons.mp hnd).2
        (fun m hm hmn => hother m (by simp [hm]) hmn)

/-- The per-name block of `matchExact`. -/
def nameBlock (L R : List Rec) (n : List Nat) : List MatchPair :=
  ((recsNamed n L).zip (recsNamed n R)).map (fun p => MatchPair.both p.1 p.2)
    ++ (((recsNamed n L).drop (recsNamed n R).length).map MatchPair.leftOnly)
    ++ (((recsNamed n R).drop (recsNamed n L).length).map MatchPair.rightOnly)

lemma matchExact_eq_flatMap (L R : List Rec) :
    matchExact L R = (((L ++ R).map (fun r => r.name)).dedup).flatMap (nameBlock L R) := rfl

lemma matchedFor_append (n : List Nat) (xs ys : List MatchPair) :
    matchedFor n (xs ++ ys) = matchedFor n xs ++ matchedFor n ys :=
  List.filterMap_append xs ys _

lemma leftOnlyFor_append (n : List Nat) (xs ys : List MatchPair) :
    leftOnlyFor n (xs ++ ys) = leftOnlyFor n xs ++ leftOnlyFor n ys :=
  List.filterMap_append xs ys _

lemma rightOnlyFor_append (n : List Nat) (xs ys : List MatchPair) :
    rightOnlyFor n (xs ++ ys) = rightOnlyFor n xs ++ rightOnlyFor n ys :=
  List.filterMap_append xs ys _

lemma matchedFor_map_leftOnly (n : List Nat) (l : List Rec) :
    matchedFor n (l.map MatchPair.leftOnly) = [] := by
  unfold matchedFor
  rw [List.filterMap_map]
  exact List.filterMap_eq_nil_iff.mpr (fun a _ => rfl)

lemma matchedFor_map_rightOnly (n : List Nat) (l : List Rec) :
    matchedFor n (l.map MatchPair.rightOnly) = [] := by
  unfold matchedFor
  rw [List.filterMap_map]
  exact List.filterMap_eq_nil_iff.mpr (fun a _ => rfl)

lemma leftOnlyFor_map_both (n : List Nat) (l : List (Rec × Rec)) :
    leftOnlyFor n (l.map (fun p => MatchPair.both p.1 p.2)) = [] := by
  unfold leftOnlyFor
  rw [List.filterMap_map]
  exact List.filterMap_eq_nil_iff.mpr (fun a _ => rfl)

lemma leftOnlyFor_map_rightOnly (n : List Nat) (l : List Rec) :
    leftOnlyFor n (l.map MatchPair.rightOnly) = [] := by
  unfold leftOnlyFor
  rw [List.filterMap_map]
  exact List.filterMap_eq_nil_iff.mpr (fun a _ => rfl)

lemma rightOnlyFor_map_both (n : List Nat) (l : List (Rec × Rec)) :
    rightOnlyFor n (l.map (fun p => MatchPair.both p.1 p.2)) = [] := by
  unfold rightOnlyFor
  rw [List.filterMap_map]
  exact List.filterMap_eq_nil_iff.mpr (fun a _ => rfl)

lemma rightOnlyFor_map_leftOnly (n : List Nat) (l : List Rec) :
    rightOnlyFor n (l.map MatchPair.leftOnly) = [] := by
  unfold rightOnlyFor
  rw [List.filterMap_map]
  exact List.filterMap_eq_nil_iff.mpr (fun a _ => rfl)

lemma matchedFor_map_both_beq (n : List Nat) (l : List (Rec × Rec))
    (h : ∀ p ∈ l, (p.1.name == n) = true) :
    matchedFor n (l.map (fun p => MatchPair.both p.1 p.2)) = l := by
  unfold matchedFor
  rw [List.filterMap_map]
  rw [filterMap_eq_map_of_forall (h := id), List.map_id]
  intro p hp
  have hb := h p hp
  simp only [Function.comp_apply, hb, if_pos]
  rfl

lemma matchedFor_map_both_nil (n : List Nat) (l : List (Rec × Rec))
    (h : ∀ p ∈ l, (p.1.name == n) = false) :
    matchedFor n (l.map (fun p => MatchPair.both p.1 p.2)) = [] := by
  unfold matchedFor
  rw [List.filterMap_map]
  refine List.filterMap_eq_nil_iff.mpr (fun p hp => ?_)
  have hb := h p hp
  simp only [Function.comp_apply, hb]
  rfl

lemma leftOnlyFor_map_leftOnly_beq (n : List Nat) (l : List Rec)
    (h : ∀ a ∈ l, (a.name == n) = true) :
    leftOnlyFor n (l.map MatchPair.leftOnly) = l := by
  unfold leftOnlyFor
  rw [List.filterMap_map]
  rw [filterMap_eq_map_of_forall (h := id), List.map_id]
  intro a ha
  have hb := h a ha
  simp only [Function.comp_apply, hb, if_pos]
  rfl

lemma leftOnlyFor_map_leftOnly_nil (n : List Nat) (l : List Rec)
    (h : ∀ a ∈ l, (a.name == n) = false) :
    leftOnlyFor n (l.map MatchPair.leftOnly) = [] := by
  unfold leftOnlyFor
  rw [List.filterMap_map]
  refine List.filterMap_eq_nil_iff.mpr (fun a ha => ?_)
  have hb := h a ha
  simp only [Function.comp_apply, hb]
  rfl

lemma rightOnlyFor_map_rightOnly_beq (n : List Nat) (l : List Rec)
    (h : ∀ a ∈ l, (a.name == n) = true) :
    rightOnlyFor n (l.map MatchPair.rightOnly) = l := by
  unfold rightOnlyFor
  rw [List.filterMap_map]
  rw [filterMap_eq_map_of_forall (h := id), List.map_id]
  intro a ha
  have hb := h a ha
  simp only [Function.comp_apply, hb, if_pos]
  rfl

lemma rightOnlyFor_map_rightOnly_nil (n : List Nat) (l : List Rec)
    (h : ∀ a ∈ l, (a.name == n) = false) :
    rightOnlyFor n (l.map MatchPair.rightOnly) = [] := by
  unfold rightOnlyFor
  rw [List.filterMap_map]
  refine List.filterMap_eq_nil_iff.mpr (fun a ha => ?_)
  have hb := h a ha
  simp only [Function.comp_apply, hb]
  rfl

lemma beq_name_of_recsNamed {m n : List Nat} {l : List Rec} {r : Rec}
    (hr : r ∈ recsNamed m l) : (r.name == n) = (m == n) := by
  rw [recsNamed_names hr]

lemma beq_zip_fst {m n : List Nat} {L R : List Rec} {p : Rec × Rec}
    (hp : p ∈ (recsNamed m L).zip (recsNamed m R)) : (p.1.name == n) = (m == n) := by
  obtain ⟨a, b⟩ := p
  exact beq_name_of_recsNamed (List.of_mem_zip hp).1

lemma beq_drop_mem {m n : List Nat} {l : List Rec} {k : Nat} {r : Rec}
    (hr : r ∈ (recsNamed m l).drop k) : (r.name == n) = (m == n) :=
  beq_name_of_recsNamed ((List.drop_sublist k (recsNamed m l)).mem hr)

lemma matchedFor_nameBlock_ne {L R : List Rec} {m n : List Nat} (hne : m ≠ n) :
    matchedFor n (nameBlock L R m) = [] := by
  have hb : (m == n) = false := by simp [hne]
  unfold nameBlock
  rw [matchedFor_append, matchedFor_append]
  rw [matchedFor_map_both_nil n _ (fun p hp => (beq_zip_fst hp).trans hb)]
  rw [matchedFor_map_leftOnly, matchedFor_map_rightOnly]
  rfl

lemma matchedFor_nameBlock_self (L R : List Rec) (n : List Nat) :
    matchedFor n (nameBlock L R n) = (recsNamed n L).zip (recsNamed n R) := by
  have hb : (n == n) = true := by simp
  unfold nameBlock
  rw [matchedFor_append, matchedFor_append]
  rw [matchedFor_map_both_beq n _ (fun p hp => (beq_zip_fst hp).trans hb)]
  rw [matchedFor_map_leftOnly, matchedFor_map_rightOnly]
  simp

lemma leftOnlyFor_nameBlock_ne {L R : List Rec} {m n : List Nat} (hne : m ≠ n) :
    leftOnlyFor n (nameBlock L R m) = [] := by
  have hb : (m == n) = false := by simp [hne]
  unfold nameBlock
  rw [leftOnlyFor_append, leftOnlyFor_append]
  rw [leftOnlyFor_map_both, leftOnlyFor_map_rightOnly]
  rw [leftOnlyFor_map_leftOnly_nil n _ (fun a ha => (beq_drop_mem ha).trans hb)]
  rfl

lemma leftOnlyFor_nameBlock_self (L R : List Rec) (n : List Nat) :
    leftOnlyFor n (nameBlock L R n) = (recsNamed n L).drop (recsNamed n R).length := by
  have hb : (n == n) = true := by simp
  unfold nameBlock
  rw [leftOnlyFor_append, leftOnlyFor_append]
  rw [leftOnlyFor_map_both, leftOnlyFor_map_rightOnly]
  rw [leftOnlyFor_map_leftOnly_beq n _ (fun a ha => (beq_drop_mem ha).trans hb)]
  simp

lemma rightOnlyFor_nameBlock_ne {L R : List Rec} {m n : List Nat} (hne : m ≠ n) :
    rightOnlyFor n (nameBlock L R m) = [] := by
  have hb : (m == n) = false := by simp [hne]
  unfold nameBlock
  rw [rightOnlyFor_append, rightOnlyFor_append]
  rw [rightOnlyFor_map_both, rightOnlyFor_map_leftOnly]
  rw [rightOnlyFor_map_rightOnly_nil n _ (fun a ha => (beq_drop_mem ha).trans hb)]
  rfl

lemma rightOnlyFor_nameBlock_self (L R : List Rec) (n : List Nat) :
    rightOnlyFor n (nameBlock L R n) = (recsNamed n R).drop (recsNamed n L).length := by
  have hb : (n == n) = true := by simp
  unfold nameBlock
  rw [rightOnlyFor_append, rightOnlyFor_append]
  rw [rightOnlyFor_map_both, rightOnlyFor_map_leftOnly]
  rw [rightOnlyFor_map_rightOnly_beq n _ (fun a ha => (beq_drop_mem ha).trans hb)]
  simp

lemma mem_dedup_names {L R : List Rec} {n : List Nat}
    (hl : 0 < (recsNamed n L).length) :
    n ∈ ((L ++ R).map (fun r => r.name)).dedup := by
  rw [List.mem_dedup]
  obtain ⟨r, hr⟩ := List.exists_mem_of_length_pos hl
  refine List.mem_map.mpr ⟨r, ?_, recsNamed_names hr⟩
  exact List.mem_append_left R (List.mem_of_mem_filter hr)

lemma drop_other_length_eq_drop_min {l1 l2 : List Rec} :
    l1.drop l2.length = l1.drop (min l1.length l2.length) := by
  rcases Nat.le_total l2.length l1.length with h | h
  · rw [Nat.min_eq_right h]
  · rw [Nat.min_eq_left h, List.drop_length]
    exact List.drop_eq_nil_of_le h

/-- C9 (spec-modelled: the Matcher does not exist in src/app.py, so it
is modelled from spec section 4.4).  In exact mode, for a canonical name
present in both record sets, the matcher produces exactly
min(count_left, count_right) matched pairs, pairing records in original
encounter order (the zip of the two per-name sublists), and every
surplus record beyond the smaller count is emitted as a single-source
pair rather than dropped. -/
theorem exact_match_multiplicity (L R : List Rec) (n : List Nat)
    (hl : 0 < (recsNamed n L).length) (_hr : 0 < (recsNamed n R).length) :
    matchedFor n (matchExact L R) = (recsNamed n L).zip (recsNamed n R)
    ∧ (matchedFor n (matchExact L R)).length
        = min (recsNamed n L).length (recsNamed n R).length
    ∧ leftOnlyFor n (matchExact L R)
        = (recsNamed n L).drop (min (recsNamed n L).length (recsNamed n R).length)
    ∧ rightOnlyFor n (matchExact L R)
        = (recsNamed n R).drop (min (recsNamed n L).length (recsNamed n R).length) := by
  have hmem := mem_dedup_names (R := R) hl
  have hnd := List.nodup_dedup ((L ++ R).map (fun r => r.name))
  have h1 : matchedFor n (matchExact L R) = (recsNamed n L).zip (recsNamed n R) := by
    rw [matchExact_eq_flatMap]
    unfold matchedFor
    rw [filterMap_flatMap_single hmem hnd
      (fun m hm hmn => matchedFor_nameBlock_ne hmn)]
    exact matchedFor_nameBlock_self L R n
  have h2 : leftOnlyFor n (matchExact L R) = leftOnlyFor n (nameBlock L R n) := by
    rw [matchExact_eq_flatMap]
    unfold leftOnlyFor
    exact filterMap_flatMap_single hmem hnd
      (fun m hm hmn => leftOnlyFor_nameBlock_ne hmn)
  have h3 : rightOnlyFor n (matchExact L R) = rightOnlyFor n (nameBlock L R n) := by
    rw [matchExact_eq_flatMap]
    unfold rightOnlyFor
    exact filterMap_flatMap_single hmem hnd
      (fun m hm hmn => rightOnlyFor_nameBlock_ne hmn)
  refine ⟨h1, ?_, ?_, ?_⟩
  · rw [h1, List.length_zip]
  · rw [h2, leftOnlyFor_nameBlock_self L R n]
    exact drop_other_length_eq_drop_min
  · rw [h3, rightOnlyFor_nameBlock_self L R n]
    rw [drop_other_length_eq_drop_min, Nat.min_comm]

/-- C9, witness for `exact_match_multiplicity`: two left records of name
"a" against one right record of that name give one matched pair and one
left-only surplus pair. -/
theorem exact_match_multiplicity_witness :
    matchedFor [0x61] (matchExact [goodRec, goodRec] [goodRec])
        = (recsNamed [0x61] [goodRec, goodRec]).zip (recsNamed [0x61] [goodRec])
    ∧ (matchedFor [0x61] (matchExact [goodRec, goodRec] [goodRec])).length
        = min (recsNamed [0x61] [goodRec, goodRec]).length
            (recsNamed [0x61] [goodRec]).length
    ∧ leftOnlyFor [0x61] (matchExact [goodRec, goodRec] [goodRec])
        = (recsNamed [0x61] [goodRec, goodRec]).drop
            (min (recsNamed [0x61] [goodRec, goodRec]).length
              (recsNamed [0x61] [goodRec]).length)
    ∧ rightOnlyFor [0x61] (matchExact [goodRec, goodRec] [goodRec])
        = (recsNamed [0x61] [goodRec]).drop
            (min (recsNamed [0x61] [goodRec, goodRec]).length
              (recsNamed [0x61] [goodRec]).length) :=
  exact_match_multiplicity [goodRec, goodRec] [goodRec] [0x61] (by decide) (by decide)

end GroupOrderCheck
